import Mathlib

/-!
Shallow embedding of the `rgx` 2D tessellation kit
(`src/kit/shape2d.rs`, `src/kit/sprite2d.rs`).

Conventions of the embedding:
* `f32` values are modelled as exact rationals (`ℚ`).  The transcendental
  operations the source takes from the platform (`sqrt` inside cgmath's
  `normalize`, `cos`, `sin`) have no exact rational counterpart, so they are
  passed to the tessellation functions as explicit function parameters
  (`fq`, `cosF`, `sinF`), together with the constant `2 * PI` (`twoPi`).
  Every structural fact (vertex counts, ordering, colors) is proved for all
  values of these parameters; geometric facts hypothesise the defining
  property of the square root at the point where it is used.
* Rust panics (`unimplemented!()`) are modelled by `Option`: a tessellation
  that panics returns `none` and no vertices.
* A separate small model `Fl` of IEEE-754 special values (`nan`, infinities)
  is used to analyse the degenerate zero-length line, where the source's
  behaviour is decided by float special-value propagation.
-/

namespace Rgx

/-- 2D vector over exact rationals; models `cgmath::Vector2<f32>`
(an external dependency of the repository): fields `x`, `y`, componentwise
subtraction and scalar multiplication. -/
structure V2 where
  x : ℚ
  y : ℚ
deriving DecidableEq, Repr

/-- Componentwise subtraction, `Vector2::sub`. -/
def V2.sub (a b : V2) : V2 := ⟨a.x - b.x, a.y - b.y⟩

/-- Scalar multiplication, `Vector2::mul`. -/
def V2.scale (a : V2) (k : ℚ) : V2 := ⟨a.x * k, a.y * k⟩

/-- cgmath `InnerSpace::normalize`: `v * (1 / magnitude v)` where
`magnitude v = sqrt (v.x*v.x + v.y*v.y)`.  The square root on `f32` is
abstracted as the parameter `fq`; theorems either hold for every `fq` or
assume `fq` returns the exact square root at the one point it is applied. -/
def normalize (fq : ℚ → ℚ) (v : V2) : V2 :=
  V2.scale v (1 / fq (v.x * v.x + v.y * v.y))

/-- Modelled from the spec: floating-point RGBA color, "4 channels in [0,1]"
(`core::Rgba`, a file of this repository that is not under `src/`). -/
structure Rgba where
  r : ℚ
  g : ℚ
  b : ℚ
  a : ℚ
deriving DecidableEq, Repr

/-- Modelled from the spec: the fully transparent color constant
(`Rgba::TRANSPARENT`, all channels zero). -/
def Rgba.TRANSPARENT : Rgba := ⟨0, 0, 0, 0⟩

/-- Packed 8-bit color, `sprite2d::Rgba8` (channels are machine `u8`,
modelled as `ℕ` kept in `[0,255]` by the conversion). -/
structure Rgba8 where
  r : ℕ
  g : ℕ
  b : ℕ
  a : ℕ
deriving DecidableEq, Repr

/-- `Rgba8::WHITE`. -/
def Rgba8.WHITE : Rgba8 := ⟨255, 255, 255, 255⟩

/-- Rust `f32::round`: nearest integer, ties rounded away from zero. -/
def f32Round (q : ℚ) : ℤ :=
  if 0 ≤ q then ⌊q + 1 / 2⌋ else ⌈q - 1 / 2⌉

/-- Rust `as u8` cast from a float whose integral rounding is `z`:
saturating to `[0, 255]`. -/
def u8sat (z : ℤ) : ℕ := (min 255 (max 0 z)).toNat

/-- `impl From<Rgba> for Rgba8` (`sprite2d.rs`): each channel is
`(channel * 255.0).round() as u8`. -/
def Rgba8.fromRgba (c : Rgba) : Rgba8 :=
  ⟨u8sat (f32Round (c.r * 255)), u8sat (f32Round (c.g * 255)),
   u8sat (f32Round (c.b * 255)), u8sat (f32Round (c.a * 255))⟩

/-- Modelled from the spec: axis-aligned rectangle "(x1,y1,x2,y2) floats"
(`core::Rect<f32>`, a file of this repository that is not under `src/`). -/
structure Rect where
  x1 : ℚ
  y1 : ℚ
  x2 : ℚ
  y2 : ℚ
deriving DecidableEq, Repr

/-- `Rect::new`. -/
def Rect.new (x1 y1 x2 y2 : ℚ) : Rect := ⟨x1, y1, x2, y2⟩

/-- Modelled from the spec: adding a vector to a `Rect` "translates" it
(`core`'s `Add<Vector2<f32>> for Rect<f32>`, not under `src/`); both corners
are shifted by the vector. -/
def Rect.translate (r : Rect) (dx dy : ℚ) : Rect :=
  ⟨r.x1 + dx, r.y1 + dy, r.x2 + dx, r.y2 + dy⟩

/-- Modelled from the spec: "repeat factor as a 2D scalar pair"
(`kit::Repeat`, a file of this repository that is not under `src/`). -/
structure Repeat where
  x : ℚ
  y : ℚ
deriving DecidableEq, Repr

/-- `shape2d::Line`: two endpoints. -/
structure Line where
  p1 : V2
  p2 : V2
deriving DecidableEq, Repr

/-- `Line::new`. -/
def Line.new (x1 y1 x2 y2 : ℚ) : Line := ⟨⟨x1, y1⟩, ⟨x2, y2⟩⟩

/-- `shape2d::Stroke`: width and color. -/
structure Stroke where
  width : ℚ
  color : Rgba
deriving DecidableEq, Repr

/-- `Stroke::NONE`: the "no stroke" sentinel, zero width and transparent. -/
def Stroke.NONE : Stroke := ⟨0, Rgba.TRANSPARENT⟩

/-- `Stroke::new`. -/
def Stroke.new (width : ℚ) (color : Rgba) : Stroke := ⟨width, color⟩

/-- `shape2d::Fill`. -/
inductive Fill where
  | Empty : Fill
  | Solid (c : Rgba) : Fill
  | Gradient (c1 c2 : Rgba) : Fill
deriving DecidableEq, Repr

/-- `shape2d::Shape`. -/
inductive Shape where
  | Line (l : Rgx.Line) (s : Stroke) : Shape
  | Rectangle (r : Rect) (s : Stroke) (f : Fill) : Shape
  | Circle (center : V2) (radius : ℚ) (sides : ℕ) (s : Stroke) (f : Fill) : Shape

/-- `shape2d::Vertex`: position plus packed color. -/
structure Vertex where
  position : V2
  color : Rgba8
deriving DecidableEq, Repr

/-- `Vertex::new`. -/
def Vertex.new (x y : ℚ) (color : Rgba8) : Vertex := ⟨⟨x, y⟩, color⟩

/-- Out-of-range index fallback for the list indexing below (the source
indexes `Vec`s with indices that are always in bounds; this default is never
reached for the index ranges used). -/
def dVert : Vertex := ⟨⟨0, 0⟩, ⟨0, 0, 0, 0⟩⟩

/-- The `Shape::Line` arm of `Shape::triangulate` (`shape2d.rs`): the
direction is normalized, the half-width offsets are `wx = width/2 * v.y`,
`wy = width/2 * v.x`, and six vertices (two triangles) are emitted.  It is
factored out of `Shape.triangulate` because the `Rectangle` arm of the
source recursively invokes `triangulate` on `Shape::Line` values. -/
def lineVerts (fq : ℚ → ℚ) (l : Line) (width : ℚ) (color : Rgba) :
    List Vertex :=
  let v := normalize fq (V2.sub l.p2 l.p1)
  let wx := width / 2 * v.y
  let wy := width / 2 * v.x
  let rgba8 := Rgba8.fromRgba color
  [Vertex.new (l.p1.x - wx) (l.p1.y + wy) rgba8,
   Vertex.new (l.p1.x + wx) (l.p1.y - wy) rgba8,
   Vertex.new (l.p2.x - wx) (l.p2.y + wy) rgba8,
   Vertex.new (l.p2.x - wx) (l.p2.y + wy) rgba8,
   Vertex.new (l.p1.x + wx) (l.p1.y - wy) rgba8,
   Vertex.new (l.p2.x + wx) (l.p2.y - wy) rgba8]

/-- `Shape::triangulate_circle` (`shape2d.rs`): `sides + 1` boundary points,
point `i` at angle `i * (2π / sides)`; `cosF`, `sinF` and `twoPi` stand for
the platform's `f32` cosine, sine and `2 * f32::consts::PI`. -/
def Shape.triangulate_circle (cosF sinF : ℚ → ℚ) (twoPi : ℚ) (position : V2)
    (radius : ℚ) (sides : ℕ) : List V2 :=
  (List.range (sides + 1)).map (fun (i : ℕ) =>
    let angle : ℚ := (i : ℚ) * (twoPi / (sides : ℚ))
    ⟨position.x + radius * cosF angle, position.y + radius * sinF angle⟩)

/-- `Shape::triangulate` (`shape2d.rs`).  Returns `none` where the source
panics (`unimplemented!()` on `Fill::Gradient`), otherwise the emitted
vertex list. -/
def Shape.triangulate (fq cosF sinF : ℚ → ℚ) (twoPi : ℚ) :
    Shape → Option (List Vertex)
  | Shape.Line l s => some (lineVerts fq l s.width s.color)
  | Shape.Rectangle r s fill =>
    let width := s.width
    let color := s.color
    let w := width / 2
    let strokeLines : List Rgx.Line :=
      [Rgx.Line.new (r.x1 + w) (r.y1 + width) (r.x1 + w) r.y2,
       Rgx.Line.new (r.x2 - w) r.y1 (r.x2 - w) (r.y2 - width),
       Rgx.Line.new (r.x1 + width) (r.y2 - w) r.x2 (r.y2 - w),
       Rgx.Line.new r.x1 (r.y1 + w) (r.x2 - width) (r.y1 + w)]
    let verts := strokeLines.flatMap (fun l => lineVerts fq l width color)
    match fill with
    | Fill.Solid c =>
      let rgba8 := Rgba8.fromRgba c
      let inner := Rect.new (r.x1 + width) (r.y1 + width) (r.x2 - width)
        (r.y2 - width)
      some (verts ++
        [Vertex.new inner.x1 inner.y1 rgba8,
         Vertex.new inner.x2 inner.y1 rgba8,
         Vertex.new inner.x2 inner.y2 rgba8,
         Vertex.new inner.x1 inner.y1 rgba8,
         Vertex.new inner.x1 inner.y2 rgba8,
         Vertex.new inner.x2 inner.y2 rgba8])
    | Fill.Gradient _ _ => none
    | Fill.Empty => some verts
  | Shape.Circle position radius sides s fill =>
    let outer := Shape.triangulate_circle cosF sinF twoPi position radius sides
    let strokeInner : List Vertex × List V2 :=
      if s = Stroke.NONE then
        ([], outer)
      else
        let inner := Shape.triangulate_circle cosF sinF twoPi position
          (radius - s.width) sides
        let rgba8 := Rgba8.fromRgba s.color
        let innerVerts := inner.map (fun p => Vertex.mk p rgba8)
        let outerVerts := outer.map (fun p => Vertex.mk p rgba8)
        let sv := (List.range (inner.length - 1)).flatMap (fun i =>
          [innerVerts.getD i dVert, outerVerts.getD i dVert,
           outerVerts.getD (i + 1) dVert, innerVerts.getD i dVert,
           outerVerts.getD (i + 1) dVert, innerVerts.getD (i + 1) dVert])
        (sv, inner)
    let strokeVerts := strokeInner.1
    let inner := strokeInner.2
    match fill with
    | Fill.Solid c =>
      let rgba8 := Rgba8.fromRgba c
      let center := Vertex.new position.x position.y rgba8
      let innerVerts := inner.map (fun p => Vertex.mk p rgba8)
      let fan := (List.range sides).flatMap (fun i =>
        [center, innerVerts.getD i dVert, innerVerts.getD (i + 1) dVert])
      some (strokeVerts ++ fan ++
        [center, innerVerts.getLastD dVert, innerVerts.headD dVert])
    | Fill.Gradient _ _ => none
    | Fill.Empty => some strokeVerts

/-- `shape2d::ShapeView`: ordered collection of shapes. -/
structure ShapeView where
  views : List Shape

/-- `ShapeView::new`. -/
def ShapeView.new : ShapeView := ⟨[]⟩

/-- `ShapeView::add`: push one shape at the end. -/
def ShapeView.add (sv : ShapeView) (s : Shape) : ShapeView :=
  ⟨sv.views ++ [s]⟩

/-- The loop body of `ShapeView::finish` (`shape2d.rs`): triangulate each
shape in order and append the vertices to the buffer; a panicking
triangulation propagates (`none`). -/
def triangulateAll (fq cosF sinF : ℚ → ℚ) (twoPi : ℚ) :
    List Shape → Option (List Vertex)
  | [] => some []
  | sh :: rest => do
    let v ← Shape.triangulate fq cosF sinF twoPi sh
    let vs ← triangulateAll fq cosF sinF twoPi rest
    some (v ++ vs)

/-- The vertex sequence built by `ShapeView::finish` (`shape2d.rs`): every
shape is triangulated in insertion order and the results are concatenated. -/
def ShapeView.finishVerts (fq cosF sinF : ℚ → ℚ) (twoPi : ℚ)
    (sv : ShapeView) : Option (List Vertex) :=
  triangulateAll fq cosF sinF twoPi sv.views

/-- `ShapeView::finish`: the concatenated vertices are passed to the
buffer-creation capability `cb` (`r.device.create_buffer`), abstracted as a
function parameter. -/
def ShapeView.finish {β : Type} (fq cosF sinF : ℚ → ℚ) (twoPi : ℚ)
    (cb : List Vertex → β) (sv : ShapeView) : Option β :=
  (sv.finishVerts fq cosF sinF twoPi).map cb

end Rgx

namespace Rgx.Sprite2d

open Rgx

/-- `sprite2d::Vertex`: position, texture coordinate and packed color. -/
structure Vertex where
  position : V2
  uv : V2
  color : Rgba8
deriving DecidableEq, Repr

/-- `Vertex::new` (`sprite2d.rs`). -/
def Vertex.new (x y u v : ℚ) (color : Rgba8) : Vertex :=
  ⟨⟨x, y⟩, ⟨u, v⟩, color⟩

/-- `sprite2d::TextureView`: atlas dimensions, entry count and the ordered
entry list `(source rect, destination rect, tint, repeat)`. -/
structure TextureView where
  w : ℕ
  h : ℕ
  size : ℕ
  views : List (Rect × Rect × Rgba × Repeat)

/-- `TextureView::new`. -/
def TextureView.new (w h : ℕ) : TextureView := ⟨w, h, 0, []⟩

/-- `TextureView::add`: push one entry, increment `size`. -/
def TextureView.add (tv : TextureView) (src dst : Rect) (rgba : Rgba)
    (rep : Repeat) : TextureView :=
  ⟨tv.w, tv.h, tv.size + 1, tv.views ++ [(src, dst, rgba, rep)]⟩

/-- `TextureView::singleton`. -/
def TextureView.singleton (w h : ℕ) (src dst : Rect) (rgba : Rgba)
    (rep : Repeat) : TextureView :=
  (TextureView.new w h).add src dst rgba rep

/-- The six vertices `TextureView::finish` emits for one entry
(`sprite2d.rs`): the source rect is divided by the atlas dimensions, scaled
by the repeat factor and assigned to the destination corners with the Y
coordinates flipped (`dst.y1` carries `ry2`, `dst.y2` carries `ry1`). -/
def TextureView.quadVerts (w h : ℕ) (e : Rect × Rect × Rgba × Repeat) :
    List Vertex :=
  let src := e.1
  let dst := e.2.1
  let rgba := e.2.2.1
  let rep := e.2.2.2
  let rx1 : ℚ := src.x1 / (w : ℚ)
  let ry1 : ℚ := src.y1 / (h : ℚ)
  let rx2 : ℚ := src.x2 / (w : ℚ)
  let ry2 : ℚ := src.y2 / (h : ℚ)
  let c := Rgba8.fromRgba rgba
  [Vertex.new dst.x1 dst.y1 (rx1 * rep.x) (ry2 * rep.y) c,
   Vertex.new dst.x2 dst.y1 (rx2 * rep.x) (ry2 * rep.y) c,
   Vertex.new dst.x2 dst.y2 (rx2 * rep.x) (ry1 * rep.y) c,
   Vertex.new dst.x1 dst.y1 (rx1 * rep.x) (ry2 * rep.y) c,
   Vertex.new dst.x1 dst.y2 (rx1 * rep.x) (ry1 * rep.y) c,
   Vertex.new dst.x2 dst.y2 (rx2 * rep.x) (ry1 * rep.y) c]

/-- The vertex sequence built by `TextureView::finish` (`sprite2d.rs`): six
vertices per entry, entries in insertion order. -/
def TextureView.finishVerts (tv : TextureView) : List Vertex :=
  tv.views.flatMap (TextureView.quadVerts tv.w tv.h)

/-- `TextureView::finish`: the vertices are passed to the buffer-creation
capability `cb`, abstracted as a function parameter. -/
def TextureView.finish {β : Type} (cb : List Vertex → β)
    (tv : TextureView) : β :=
  cb tv.finishVerts

/-- `TextureView::offset` (`sprite2d.rs`): translate every entry's
destination rect in place; everything else is untouched. -/
def TextureView.offset (tv : TextureView) (x y : ℚ) : TextureView :=
  { tv with
    views := tv.views.map (fun e => (e.1, (e.2.1).translate x y, e.2.2.1,
      e.2.2.2)) }

/-- The batch states reachable through the public `TextureView` interface:
`new`, `singleton`, then any sequence of `add` and `offset` (`finish`
consumes the batch and constructs no new one). -/
inductive TVReachable : TextureView → Prop where
  | new (w h : ℕ) : TVReachable (TextureView.new w h)
  | singleton (w h : ℕ) (src dst : Rect) (rgba : Rgba) (rep : Repeat) :
      TVReachable (TextureView.singleton w h src dst rgba rep)
  | add (tv : TextureView) (src dst : Rect) (rgba : Rgba) (rep : Repeat) :
      TVReachable tv → TVReachable (tv.add src dst rgba rep)
  | offset (tv : TextureView) (x y : ℚ) : TVReachable tv →
      TVReachable (tv.offset x y)

end Rgx.Sprite2d

namespace Rgx.Fl

open Rgx

/-- Modelled from the spec: "zero-length line makes `normalize` produce
NaN/undefined direction".  A minimal model of IEEE-754 `f32` special values
(`NaN`, the two infinities) with finite values kept exact as rationals,
used to analyse the degenerate zero-length line, whose outcome in the
source is decided by float special-value propagation inside cgmath's
`normalize` (an external dependency). -/
inductive F where
  | nan : F
  | inf : F
  | ninf : F
  | fin (q : ℚ) : F
deriving DecidableEq, Repr

/-- IEEE negation. -/
def F.neg : F → F
  | F.nan => F.nan
  | F.inf => F.ninf
  | F.ninf => F.inf
  | F.fin a => F.fin (-a)

/-- IEEE addition (finite arithmetic exact; `NaN` absorbing;
`inf + ninf = NaN`). -/
def F.add : F → F → F
  | F.nan, _ => F.nan
  | _, F.nan => F.nan
  | F.inf, F.ninf => F.nan
  | F.ninf, F.inf => F.nan
  | F.inf, _ => F.inf
  | _, F.inf => F.inf
  | F.ninf, _ => F.ninf
  | _, F.ninf => F.ninf
  | F.fin a, F.fin b => F.fin (a + b)

/-- IEEE subtraction. -/
def F.sub (a b : F) : F := a.add b.neg

/-- IEEE multiplication (`0 * inf = NaN`). -/
def F.mul : F → F → F
  | F.nan, _ => F.nan
  | _, F.nan => F.nan
  | F.inf, F.inf => F.inf
  | F.inf, F.ninf => F.ninf
  | F.ninf, F.inf => F.ninf
  | F.ninf, F.ninf => F.inf
  | F.inf, F.fin b => if b = 0 then F.nan else if 0 < b then F.inf else F.ninf
  | F.fin a, F.inf => if a = 0 then F.nan else if 0 < a then F.inf else F.ninf
  | F.ninf, F.fin b => if b = 0 then F.nan else if 0 < b then F.ninf else F.inf
  | F.fin a, F.ninf => if a = 0 then F.nan else if 0 < a then F.ninf else F.inf
  | F.fin a, F.fin b => F.fin (a * b)

/-- IEEE division (positive finite over `+0` gives `inf`; signed zero is not
modelled, zero is treated as `+0` as produced by the computations here). -/
def F.div : F → F → F
  | F.nan, _ => F.nan
  | _, F.nan => F.nan
  | F.inf, F.inf => F.nan
  | F.inf, F.ninf => F.nan
  | F.ninf, F.inf => F.nan
  | F.ninf, F.ninf => F.nan
  | F.inf, F.fin b => if 0 ≤ b then F.inf else F.ninf
  | F.ninf, F.fin b => if 0 ≤ b then F.ninf else F.inf
  | F.fin _, F.inf => F.fin 0
  | F.fin _, F.ninf => F.fin 0
  | F.fin a, F.fin b =>
    if b = 0 then (if a = 0 then F.nan else if 0 < a then F.inf else F.ninf)
    else F.fin (a / b)

/-- IEEE square root: `sqrt (+0) = +0`, negative arguments give `NaN`; the
value on positive finite arguments is abstracted as `fsqrt`. -/
def F.sqrtP (fsqrt : ℚ → ℚ) : F → F
  | F.nan => F.nan
  | F.inf => F.inf
  | F.ninf => F.nan
  | F.fin q => if q < 0 then F.nan else F.fin (fsqrt q)

/-- 2D vector of IEEE values. -/
structure FV2 where
  x : F
  y : F
deriving DecidableEq, Repr

/-- Componentwise subtraction. -/
def FV2.sub (a b : FV2) : FV2 := ⟨a.x.sub b.x, a.y.sub b.y⟩

/-- Scalar multiplication. -/
def FV2.scale (v : FV2) (k : F) : FV2 := ⟨v.x.mul k, v.y.mul k⟩

/-- cgmath `normalize` over IEEE values:
`v * (1 / sqrt (v.x*v.x + v.y*v.y))`. -/
def normalizeF (fsqrt : ℚ → ℚ) (v : FV2) : FV2 :=
  FV2.scale v (F.div (F.fin 1)
    (F.sqrtP fsqrt ((v.x.mul v.x).add (v.y.mul v.y))))

/-- A shape vertex whose position carries IEEE values. -/
structure FVertex where
  position : FV2
  color : Rgba8
deriving DecidableEq, Repr

/-- The `Shape::Line` arm of `Shape::triangulate` replayed over the IEEE
model: direction `v = normalize (p2 - p1)`, offsets `wx = width/2 * v.y`,
`wy = width/2 * v.x`, six emitted vertices. -/
def lineVertsF (fsqrt : ℚ → ℚ) (p1 p2 : FV2) (width : F) (color : Rgba) :
    List FVertex :=
  let v := normalizeF fsqrt (FV2.sub p2 p1)
  let wx := (width.div (F.fin 2)).mul v.y
  let wy := (width.div (F.fin 2)).mul v.x
  let rgba8 := Rgba8.fromRgba color
  [⟨⟨p1.x.sub wx, p1.y.add wy⟩, rgba8⟩,
   ⟨⟨p1.x.add wx, p1.y.sub wy⟩, rgba8⟩,
   ⟨⟨p2.x.sub wx, p2.y.add wy⟩, rgba8⟩,
   ⟨⟨p2.x.sub wx, p2.y.add wy⟩, rgba8⟩,
   ⟨⟨p1.x.add wx, p1.y.sub wy⟩, rgba8⟩,
   ⟨⟨p2.x.add wx, p2.y.sub wy⟩, rgba8⟩]

end Rgx.Fl

namespace Rgx

/-- Length of a `flatMap` whose blocks all have the same length. -/
theorem length_flatMap_const {α β : Type} (l : List α) (f : α → List β)
    (c : ℕ) (h : ∀ e ∈ l, (f e).length = c) :
    (l.flatMap f).length = c * l.length := by
  induction l with
  | nil => simp
  | cons a t ih =>
    simp only [List.flatMap_cons, List.length_append, List.length_cons]
    rw [h a (by simp), ih (fun e he => h e (by simp [he]))]
    ring

/-- Length of a `flatMap` over `List.range` with three-element blocks. -/
theorem length_flatMap_three {α : Type} (k : ℕ) (a b c : ℕ → α) :
    ((List.range k).flatMap (fun i => [a i, b i, c i])).length = 3 * k := by
  rw [length_flatMap_const (List.range k) (fun i => [a i, b i, c i]) 3
    (fun _ _ => rfl), List.length_range]

/-- Length of a `flatMap` over `List.range` with six-element blocks. -/
theorem length_flatMap_six {α : Type} (k : ℕ) (a b c d e f : ℕ → α) :
    ((List.range k).flatMap
      (fun i => [a i, b i, c i, d i, e i, f i])).length = 6 * k := by
  rw [length_flatMap_const (List.range k)
    (fun i => [a i, b i, c i, d i, e i, f i]) 6 (fun _ _ => rfl),
    List.length_range]

/-- `Shape::triangulate_circle` returns `sides + 1` boundary points. -/
theorem circle_points_length (cosF sinF : ℚ → ℚ) (twoPi : ℚ) (position : V2)
    (radius : ℚ) (sides : ℕ) :
    (Shape.triangulate_circle cosF sinF twoPi position radius sides).length =
      sides + 1 := by
  simp [Shape.triangulate_circle]

/-- C4: for every rectangle or circle whose fill is `Gradient`, tessellation
fails explicitly (the source's `unimplemented!()` panic, modelled as `none`)
and zero vertices are produced; it never silently returns empty or
solid-fill geometry. -/
theorem gradient_fill_fails (fq cosF sinF : ℚ → ℚ) (twoPi : ℚ) (r : Rect)
    (s : Stroke) (c1 c2 : Rgba) (center : V2) (radius : ℚ) (n : ℕ) :
    Shape.triangulate fq cosF sinF twoPi
        (Shape.Rectangle r s (Fill.Gradient c1 c2)) = none ∧
      Shape.triangulate fq cosF sinF twoPi
        (Shape.Circle center radius n s (Fill.Gradient c1 c2)) = none := by
  constructor <;> simp [Shape.triangulate]

/-- C1 (counterexample): a circle with `sideCount = 3`, stroke the `none`
sentinel and a solid fill does not tessellate to `3 * 3 = 9` vertices (the
code emits `3 * 3 + 3 = 12`: the fan loop already covers all `sideCount`
segments and a closing triangle is pushed in addition). -/
theorem circle_solid_count_counterexample :
    (Shape.triangulate (fun _ => 0) (fun _ => 0) (fun _ => 0) 0
      (Shape.Circle ⟨0, 0⟩ 1 3 Stroke.NONE (Fill.Solid ⟨1, 0, 0, 1⟩))).map
      List.length ≠ some (3 * 3) := by decide

/-- C1 (amended): for a circle with `sideCount = n ≥ 3`, stroke the `none`
sentinel and solid fill, tessellation emits exactly `3 * (n + 1)` vertices
(none from the stroke); with a stroke of positive width and empty fill it
emits exactly `6 * n` vertices (none from the fill). -/
theorem circle_vertex_counts (fq cosF sinF : ℚ → ℚ) (twoPi : ℚ) (center : V2)
    (radius : ℚ) (n : ℕ) (s : Stroke) (c : Rgba) (hn : 3 ≤ n)
    (hs : 0 < s.width) :
    (Shape.triangulate fq cosF sinF twoPi
        (Shape.Circle center radius n Stroke.NONE (Fill.Solid c))).map
        List.length = some (3 * (n + 1)) ∧
      (Shape.triangulate fq cosF sinF twoPi
        (Shape.Circle center radius n s Fill.Empty)).map List.length =
        some (6 * n) := by
  have hsne : s ≠ Stroke.NONE := by
    intro h
    rw [h] at hs
    simp [Stroke.NONE] at hs
  constructor
  · simp only [Shape.triangulate, if_pos, Option.map_some', List.nil_append,
      List.length_append]
    rw [length_flatMap_three]
    simp only [List.length_cons, List.length_nil, Option.some.injEq]
    omega
  · simp only [Shape.triangulate, if_neg hsne, Option.map_some']
    rw [circle_points_length, Nat.add_sub_cancel, length_flatMap_six]

/-- Witness for C1's amended theorem at a concrete circle. -/
theorem circle_vertex_counts_witness :
    (Shape.triangulate (fun _ => 1) (fun _ => 1) (fun _ => 1) 1
        (Shape.Circle ⟨0, 0⟩ 2 3 Stroke.NONE (Fill.Solid ⟨0, 1, 0, 1⟩))).map
        List.length = some (3 * (3 + 1)) ∧
      (Shape.triangulate (fun _ => 1) (fun _ => 1) (fun _ => 1) 1
        (Shape.Circle ⟨0, 0⟩ 2 3 (Stroke.new 1 ⟨1, 0, 0, 1⟩)
          Fill.Empty)).map List.length = some (6 * 3) :=
  circle_vertex_counts (fun _ => 1) (fun _ => 1) (fun _ => 1) 1 ⟨0, 0⟩ 2 3
    (Stroke.new 1 ⟨1, 0, 0, 1⟩) ⟨0, 1, 0, 1⟩ (by decide)
    (by norm_num [Stroke.new])

/-- C2 (counterexample): a rectangle with stroke width `0` and `Fill::Empty`
still tessellates to 24 stroke vertices — the rectangle arm never tests the
width, so a zero-width stroke does not contribute 0 vertices. -/
theorem rect_zero_width_counterexample :
    (Shape.triangulate (fun _ => 0) (fun _ => 0) (fun _ => 0) 0
        (Shape.Rectangle (Rect.new 0 0 4 4) (Stroke.new 0 ⟨0, 0, 1, 1⟩)
          Fill.Empty)).map List.length = some 24 ∧
      (Shape.triangulate (fun _ => 0) (fun _ => 0) (fun _ => 0) 0
        (Shape.Rectangle (Rect.new 0 0 4 4) (Stroke.new 0 ⟨0, 0, 1, 1⟩)
          Fill.Empty)).map List.length ≠ some 0 := by
  constructor <;> decide

/-- C2 (amended): for every rectangle and every stroke — any width,
including `0` — tessellation with `Fill::Empty` emits exactly 24 vertices
(4 border lines times 6) and with `Fill::Solid` exactly 30 (24 stroke + 6
fill); the stroke contributes its 24 vertices regardless of width. -/
theorem rect_vertex_counts (fq cosF sinF : ℚ → ℚ) (twoPi : ℚ) (r : Rect)
    (s : Stroke) (c : Rgba) :
    (Shape.triangulate fq cosF sinF twoPi
        (Shape.Rectangle r s Fill.Empty)).map List.length = some 24 ∧
      (Shape.triangulate fq cosF sinF twoPi
        (Shape.Rectangle r s (Fill.Solid c))).map List.length = some 30 := by
  constructor <;> simp [Shape.triangulate, lineVerts]

/-- C3 (code evidence): replaying the `Shape::Line` arm of
`Shape::triangulate` over the IEEE-754 model on a zero-length line
(`p1 = p2 = (1, 2)`, stroke width 1, red): `normalize` divides the zero
vector by its zero magnitude, producing NaN in both direction components,
and the function still emits 6 vertices — every position coordinate of
every emitted vertex is NaN.  It neither emits zero vertices nor signals a
failure.  `fsqrt` is the square root on nonnegative finite values;
IEEE requires `sqrt (+0) = +0`. -/
theorem zero_length_line_emits_nan (fsqrt : ℚ → ℚ) (h : fsqrt 0 = 0) :
    Fl.lineVertsF fsqrt ⟨Fl.F.fin 1, Fl.F.fin 2⟩ ⟨Fl.F.fin 1, Fl.F.fin 2⟩
      (Fl.F.fin 1) ⟨1, 0, 0, 1⟩ =
    [⟨⟨Fl.F.nan, Fl.F.nan⟩, ⟨255, 0, 0, 255⟩⟩,
     ⟨⟨Fl.F.nan, Fl.F.nan⟩, ⟨255, 0, 0, 255⟩⟩,
     ⟨⟨Fl.F.nan, Fl.F.nan⟩, ⟨255, 0, 0, 255⟩⟩,
     ⟨⟨Fl.F.nan, Fl.F.nan⟩, ⟨255, 0, 0, 255⟩⟩,
     ⟨⟨Fl.F.nan, Fl.F.nan⟩, ⟨255, 0, 0, 255⟩⟩,
     ⟨⟨Fl.F.nan, Fl.F.nan⟩, ⟨255, 0, 0, 255⟩⟩] := by
  have hc : Rgba8.fromRgba ⟨1, 0, 0, 1⟩ = ⟨255, 0, 0, 255⟩ := by
    norm_num [Rgba8.fromRgba, u8sat, f32Round, Rgba8.mk.injEq] <;> decide
  norm_num [Fl.lineVertsF, Fl.normalizeF, Fl.FV2.sub, Fl.FV2.scale, Fl.F.sub,
    Fl.F.neg, Fl.F.add, Fl.F.mul, Fl.F.div, Fl.F.sqrtP, h, hc]

/-- Witness for C3's evidence theorem with the identity standing in for the
square root (only its value at `0` matters, and `id 0 = 0`). -/
theorem zero_length_line_emits_nan_witness :
    Fl.lineVertsF (fun q => q) ⟨Fl.F.fin 1, Fl.F.fin 2⟩
      ⟨Fl.F.fin 1, Fl.F.fin 2⟩ (Fl.F.fin 1) ⟨1, 0, 0, 1⟩ =
    [⟨⟨Fl.F.nan, Fl.F.nan⟩, ⟨255, 0, 0, 255⟩⟩,
     ⟨⟨Fl.F.nan, Fl.F.nan⟩, ⟨255, 0, 0, 255⟩⟩,
     ⟨⟨Fl.F.nan, Fl.F.nan⟩, ⟨255, 0, 0, 255⟩⟩,
     ⟨⟨Fl.F.nan, Fl.F.nan⟩, ⟨255, 0, 0, 255⟩⟩,
     ⟨⟨Fl.F.nan, Fl.F.nan⟩, ⟨255, 0, 0, 255⟩⟩,
     ⟨⟨Fl.F.nan, Fl.F.nan⟩, ⟨255, 0, 0, 255⟩⟩] :=
  zero_length_line_emits_nan (fun q => q) rfl

/-- C5: for a line with distinct endpoints and stroke `(width, color)`,
tessellation emits exactly the six vertices
`(p1-w, p1+w, p2-w), (p2-w, p1+w, p2+w)` (two triangles), all carrying the
stroke color, where `w = (wx, -wy)` with `wx = width/2 * v.y`,
`wy = width/2 * v.x` and `v = normalize (p2 - p1)` (here `m` is the exact
magnitude of `p2 - p1`, returned by the square-root function `fq` at the
squared magnitude); the short quad side is perpendicular to the segment and
has squared length `width²`, the long sides are exact translates of the
segment, and the corner pairs at each endpoint average back to the
endpoint: the two triangles tile a rectangle of width `width` centered on
the segment `p1`–`p2`. -/
theorem line_tessellation_geometry (fq cosF sinF : ℚ → ℚ) (twoPi : ℚ)
    (p1 p2 : V2) (width : ℚ) (c : Rgba) (m wx wy : ℚ) (hne : p1 ≠ p2)
    (hm : fq ((p2.x - p1.x) * (p2.x - p1.x) +
      (p2.y - p1.y) * (p2.y - p1.y)) = m)
    (hm2 : m * m = (p2.x - p1.x) * (p2.x - p1.x) +
      (p2.y - p1.y) * (p2.y - p1.y))
    (hm0 : 0 < m)
    (hwx : wx = width / 2 * ((p2.y - p1.y) * (1 / m)))
    (hwy : wy = width / 2 * ((p2.x - p1.x) * (1 / m))) :
    Shape.triangulate fq cosF sinF twoPi
        (Shape.Line ⟨p1, p2⟩ ⟨width, c⟩) =
      some [Vertex.new (p1.x - wx) (p1.y + wy) (Rgba8.fromRgba c),
        Vertex.new (p1.x + wx) (p1.y - wy) (Rgba8.fromRgba c),
        Vertex.new (p2.x - wx) (p2.y + wy) (Rgba8.fromRgba c),
        Vertex.new (p2.x - wx) (p2.y + wy) (Rgba8.fromRgba c),
        Vertex.new (p1.x + wx) (p1.y - wy) (Rgba8.fromRgba c),
        Vertex.new (p2.x + wx) (p2.y - wy) (Rgba8.fromRgba c)] ∧
      2 * wx * (p2.x - p1.x) + -(2 * wy) * (p2.y - p1.y) = 0 ∧
      2 * wx * (2 * wx) + 2 * wy * (2 * wy) = width * width ∧
      p2.x - wx - (p1.x - wx) = p2.x - p1.x ∧
      p2.y + wy - (p1.y + wy) = p2.y - p1.y ∧
      (p1.x - wx + (p1.x + wx)) / 2 = p1.x ∧
      (p1.y + wy + (p1.y - wy)) / 2 = p1.y ∧
      (p2.x - wx + (p2.x + wx)) / 2 = p2.x ∧
      (p2.y + wy + (p2.y - wy)) / 2 = p2.y := by
  subst hwx hwy
  refine ⟨?_, ?_, ?_, by ring, by ring, by ring, by ring, by ring, by ring⟩
  · simp [Shape.triangulate, lineVerts, normalize, V2.sub, V2.scale, hm,
      Vertex.new]
  · field_simp
    ring
  · field_simp
    linear_combination -4 * width ^ 2 * hm2

/-- Witness for C5 on the segment `(0,0)`–`(3,4)` (magnitude 5) with stroke
width 2. -/
theorem line_tessellation_geometry_witness :
    Shape.triangulate (fun _ => 5) (fun _ => 0) (fun _ => 0) 0
        (Shape.Line ⟨⟨0, 0⟩, ⟨3, 4⟩⟩ ⟨2, ⟨1, 0, 0, 1⟩⟩) =
      some [Vertex.new (0 - 4 / 5) (0 + 3 / 5) (Rgba8.fromRgba ⟨1, 0, 0, 1⟩),
        Vertex.new (0 + 4 / 5) (0 - 3 / 5) (Rgba8.fromRgba ⟨1, 0, 0, 1⟩),
        Vertex.new (3 - 4 / 5) (4 + 3 / 5) (Rgba8.fromRgba ⟨1, 0, 0, 1⟩),
        Vertex.new (3 - 4 / 5) (4 + 3 / 5) (Rgba8.fromRgba ⟨1, 0, 0, 1⟩),
        Vertex.new (0 + 4 / 5) (0 - 3 / 5) (Rgba8.fromRgba ⟨1, 0, 0, 1⟩),
        Vertex.new (3 + 4 / 5) (4 - 3 / 5) (Rgba8.fromRgba ⟨1, 0, 0, 1⟩)] ∧
      (2 : ℚ) * (4 / 5) * (3 - 0) + -(2 * (3 / 5)) * (4 - 0) = 0 ∧
      (2 : ℚ) * (4 / 5) * (2 * (4 / 5)) + 2 * (3 / 5) * (2 * (3 / 5)) =
        2 * 2 ∧
      (3 : ℚ) - 4 / 5 - (0 - 4 / 5) = 3 - 0 ∧
      (4 : ℚ) + 3 / 5 - (0 + 3 / 5) = 4 - 0 ∧
      ((0 : ℚ) - 4 / 5 + (0 + 4 / 5)) / 2 = 0 ∧
      ((0 : ℚ) + 3 / 5 + (0 - 3 / 5)) / 2 = 0 ∧
      ((3 : ℚ) - 4 / 5 + (3 + 4 / 5)) / 2 = 3 ∧
      ((4 : ℚ) + 3 / 5 + (4 - 3 / 5)) / 2 = 4 := by
  have h := line_tessellation_geometry (fun _ => 5) (fun _ => 0) (fun _ => 0)
    0 ⟨0, 0⟩ ⟨3, 4⟩ 2 ⟨1, 0, 0, 1⟩ 5 (4 / 5) (3 / 5)
    (by norm_num [V2.mk.injEq]) rfl (by norm_num) (by norm_num)
    (by norm_num) (by norm_num)
  refine ⟨h.1, by norm_num, by norm_num, by norm_num, by norm_num,
    by norm_num, by norm_num, by norm_num, by norm_num⟩

/-- C6: a sprite batch bound to atlas `(w, h)` finalizes to exactly 6
vertices per entry, in insertion order (appending an entry appends exactly
its 6 quad vertices); each entry's vertices take the destination rect's
corners as positions, the tint baked per vertex and UVs equal to the source
rect divided by `(w, h)` and scaled by the repeat factor with the Y-flipped
corner assignment; in particular a 64×64 atlas with source rect
`(0,0,32,32)`, destination rect `(10,10,42,42)`, opaque white tint and
repeat `(1,1)` yields 6 vertices with UV corners exactly
`{(0,0), (1/2,0), (1/2,1/2), (0,1/2)}` and positions on the destination
corners. -/
theorem sprite_batch_finish (tv : Sprite2d.TextureView) (src dst : Rect)
    (tint : Rgba) (rep : Repeat) :
    tv.finishVerts.length = 6 * tv.views.length ∧
      (tv.add src dst tint rep).finishVerts =
        tv.finishVerts ++
          Sprite2d.TextureView.quadVerts tv.w tv.h (src, dst, tint, rep) ∧
      (Sprite2d.TextureView.singleton 64 64 (Rect.new 0 0 32 32)
          (Rect.new 10 10 42 42) ⟨1, 1, 1, 1⟩ ⟨1, 1⟩).finishVerts =
        [Sprite2d.Vertex.new 10 10 0 (1 / 2) Rgba8.WHITE,
         Sprite2d.Vertex.new 42 10 (1 / 2) (1 / 2) Rgba8.WHITE,
         Sprite2d.Vertex.new 42 42 (1 / 2) 0 Rgba8.WHITE,
         Sprite2d.Vertex.new 10 10 0 (1 / 2) Rgba8.WHITE,
         Sprite2d.Vertex.new 10 42 0 0 Rgba8.WHITE,
         Sprite2d.Vertex.new 42 42 (1 / 2) 0 Rgba8.WHITE] := by
  refine ⟨?_, ?_, ?_⟩
  · simp only [Sprite2d.TextureView.finishVerts]
    exact length_flatMap_const tv.views
      (Sprite2d.TextureView.quadVerts tv.w tv.h) 6 (fun e _ => rfl)
  · simp [Sprite2d.TextureView.add, Sprite2d.TextureView.finishVerts,
      List.flatMap_append]
  · norm_num [Sprite2d.TextureView.singleton, Sprite2d.TextureView.new,
      Sprite2d.TextureView.add, Sprite2d.TextureView.finishVerts,
      Sprite2d.TextureView.quadVerts, Sprite2d.Vertex.new, Rect.new,
      Rgba8.WHITE, Rgba8.fromRgba, u8sat, f32Round, Sprite2d.Vertex.mk.injEq,
      V2.mk.injEq, Rgba8.mk.injEq]
    decide

/-- C7: a shape batch finalizes to the concatenation, in insertion order,
of the tessellations of its shapes, and passes that sequence to the
buffer-creation capability; an empty batch yields the empty vertex
sequence. -/
theorem shape_batch_finish {β : Type} (fq cosF sinF : ℚ → ℚ) (twoPi : ℚ)
    (A B C : Shape) (la lb lc : List Vertex) (cb : List Vertex → β)
    (hA : Shape.triangulate fq cosF sinF twoPi A = some la)
    (hB : Shape.triangulate fq cosF sinF twoPi B = some lb)
    (hC : Shape.triangulate fq cosF sinF twoPi C = some lc) :
    ShapeView.finishVerts fq cosF sinF twoPi ⟨[A, B, C]⟩ =
        some (la ++ lb ++ lc) ∧
      ShapeView.finishVerts fq cosF sinF twoPi ShapeView.new = some [] ∧
      ShapeView.finish fq cosF sinF twoPi cb ⟨[A, B, C]⟩ =
        some (cb (la ++ lb ++ lc)) := by
  have h1 : ShapeView.finishVerts fq cosF sinF twoPi ⟨[A, B, C]⟩ =
      some (la ++ lb ++ lc) := by
    simp [ShapeView.finishVerts, triangulateAll, hA, hB, hC]
  exact ⟨h1, by simp [ShapeView.finishVerts, ShapeView.new, triangulateAll],
    by simp [ShapeView.finish, h1]⟩

/-- C8: `offset(dx, dy)` translates the destination rect of every entry by
exactly `(dx, dy)` and changes nothing else: atlas dimensions, entry count,
and every entry's source rect, tint and repeat factor are unchanged. -/
theorem offset_translates_only (tv : Sprite2d.TextureView) (dx dy : ℚ) :
    (tv.offset dx dy).w = tv.w ∧ (tv.offset dx dy).h = tv.h ∧
      (tv.offset dx dy).size = tv.size ∧
      (tv.offset dx dy).views.length = tv.views.length ∧
      ∀ i : ℕ, (tv.offset dx dy).views[i]? =
        tv.views[i]?.map (fun e => (e.1,
          Rect.new (e.2.1.x1 + dx) (e.2.1.y1 + dy) (e.2.1.x2 + dx)
            (e.2.1.y2 + dy), e.2.2.1, e.2.2.2)) := by
  refine ⟨rfl, rfl, rfl, by simp [Sprite2d.TextureView.offset], ?_⟩
  intro i
  simp [Sprite2d.TextureView.offset, Rect.translate, Rect.new]

/-- Witness for C7 on a batch of three identical red lines. -/
theorem shape_batch_finish_witness :
    ShapeView.finishVerts (fun _ => 1) (fun _ => 1) (fun _ => 1) 1
        ⟨[Shape.Line (Line.new 0 0 1 0) (Stroke.new 2 ⟨1, 0, 0, 1⟩),
          Shape.Line (Line.new 0 0 1 0) (Stroke.new 2 ⟨1, 0, 0, 1⟩),
          Shape.Line (Line.new 0 0 1 0) (Stroke.new 2 ⟨1, 0, 0, 1⟩)]⟩ =
      some
        ([Vertex.new 0 1 ⟨255, 0, 0, 255⟩,
          Vertex.new 0 (-1) ⟨255, 0, 0, 255⟩,
          Vertex.new 1 1 ⟨255, 0, 0, 255⟩, Vertex.new 1 1 ⟨255, 0, 0, 255⟩,
          Vertex.new 0 (-1) ⟨255, 0, 0, 255⟩,
          Vertex.new 1 (-1) ⟨255, 0, 0, 255⟩] ++
        [Vertex.new 0 1 ⟨255, 0, 0, 255⟩,
          Vertex.new 0 (-1) ⟨255, 0, 0, 255⟩,
          Vertex.new 1 1 ⟨255, 0, 0, 255⟩, Vertex.new 1 1 ⟨255, 0, 0, 255⟩,
          Vertex.new 0 (-1) ⟨255, 0, 0, 255⟩,
          Vertex.new 1 (-1) ⟨255, 0, 0, 255⟩] ++
        [Vertex.new 0 1 ⟨255, 0, 0, 255⟩,
          Vertex.new 0 (-1) ⟨255, 0, 0, 255⟩,
          Vertex.new 1 1 ⟨255, 0, 0, 255⟩, Vertex.new 1 1 ⟨255, 0, 0, 255⟩,
          Vertex.new 0 (-1) ⟨255, 0, 0, 255⟩,
          Vertex.new 1 (-1) ⟨255, 0, 0, 255⟩]) ∧
      ShapeView.finishVerts (fun _ => 1) (fun _ => 1) (fun _ => 1) 1
        ShapeView.new = some [] ∧
      ShapeView.finish (fun _ => 1) (fun _ => 1) (fun _ => 1) 1
        (fun v => v)
        ⟨[Shape.Line (Line.new 0 0 1 0) (Stroke.new 2 ⟨1, 0, 0, 1⟩),
          Shape.Line (Line.new 0 0 1 0) (Stroke.new 2 ⟨1, 0, 0, 1⟩),
          Shape.Line (Line.new 0 0 1 0) (Stroke.new 2 ⟨1, 0, 0, 1⟩)]⟩ =
      some
        ([Vertex.new 0 1 ⟨255, 0, 0, 255⟩,
          Vertex.new 0 (-1) ⟨255, 0, 0, 255⟩,
          Vertex.new 1 1 ⟨255, 0, 0, 255⟩, Vertex.new 1 1 ⟨255, 0, 0, 255⟩,
          Vertex.new 0 (-1) ⟨255, 0, 0, 255⟩,
          Vertex.new 1 (-1) ⟨255, 0, 0, 255⟩] ++
        [Vertex.new 0 1 ⟨255, 0, 0, 255⟩,
          Vertex.new 0 (-1) ⟨255, 0, 0, 255⟩,
          Vertex.new 1 1 ⟨255, 0, 0, 255⟩, Vertex.new 1 1 ⟨255, 0, 0, 255⟩,
          Vertex.new 0 (-1) ⟨255, 0, 0, 255⟩,
          Vertex.new 1 (-1) ⟨255, 0, 0, 255⟩] ++
        [Vertex.new 0 1 ⟨255, 0, 0, 255⟩,
          Vertex.new 0 (-1) ⟨255, 0, 0, 255⟩,
          Vertex.new 1 1 ⟨255, 0, 0, 255⟩, Vertex.new 1 1 ⟨255, 0, 0, 255⟩,
          Vertex.new 0 (-1) ⟨255, 0, 0, 255⟩,
          Vertex.new 1 (-1) ⟨255, 0, 0, 255⟩]) := by
  have hA : Shape.triangulate (fun _ => 1) (fun _ => 1) (fun _ => 1) 1
      (Shape.Line (Line.new 0 0 1 0) (Stroke.new 2 ⟨1, 0, 0, 1⟩)) =
      some [Vertex.new 0 1 ⟨255, 0, 0, 255⟩,
        Vertex.new 0 (-1) ⟨255, 0, 0, 255⟩,
        Vertex.new 1 1 ⟨255, 0, 0, 255⟩, Vertex.new 1 1 ⟨255, 0, 0, 255⟩,
        Vertex.new 0 (-1) ⟨255, 0, 0, 255⟩,
        Vertex.new 1 (-1) ⟨255, 0, 0, 255⟩] := by
    norm_num [Shape.triangulate, lineVerts, normalize, V2.sub, V2.scale,
      Line.new, Stroke.new, Vertex.new, Rgba8.fromRgba, u8sat, f32Round,
      V2.mk.injEq, Vertex.mk.injEq, Rgba8.mk.injEq]
    decide
  exact shape_batch_finish _ _ _ _ _ _ _ _ _ _ (fun v => v) hA hA hA

/-- `as u8` does not change an integer already in `[0, 255]`. -/
theorem u8sat_coe (z : ℤ) (h0 : 0 ≤ z) (h1 : z ≤ 255) :
    ((u8sat z : ℕ) : ℤ) = z := by
  unfold u8sat
  have hm : min 255 (max 0 z) = z := by omega
  rw [hm, Int.toNat_of_nonneg h0]

/-- `f32::round` keeps `[0, 255]` inputs inside `[0, 255]`. -/
theorem f32Round_mem (q : ℚ) (h0 : 0 ≤ q) (h1 : q ≤ 255) :
    0 ≤ f32Round q ∧ f32Round q ≤ 255 := by
  rw [f32Round, if_pos h0]
  constructor
  · exact Int.le_floor.mpr (by push_cast; linarith)
  · have h2 : (⌊q + 1 / 2⌋ : ℤ) < 256 := by
      rw [Int.floor_lt]
      push_cast
      linarith
    omega

/-- One channel of the conversion is exactly the rounding when the input
channel lies in `[0, 1]` (the `as u8` cast does not saturate). -/
theorem fromRgba_channel (q : ℚ) (h0 : 0 ≤ q) (h1 : q ≤ 1) :
    ((u8sat (f32Round (q * 255)) : ℕ) : ℤ) = f32Round (q * 255) := by
  have hb := f32Round_mem (q * 255) (by positivity) (by nlinarith)
  exact u8sat_coe _ hb.1 hb.2

/-- C9: for channels in `[0, 1]` the float-to-packed conversion computes
each 8-bit channel as `round(channel * 255)` (ties away from zero, the Rust
`f32::round`); in particular `(1,1,1,1) ↦ (255,255,255,255)`,
`(0,0,0,0) ↦ (0,0,0,0)` and `(1/2,1/2,1/2,1/2) ↦ (128,128,128,128)`. -/
theorem color_conversion (c : Rgba) (hr : 0 ≤ c.r ∧ c.r ≤ 1)
    (hg : 0 ≤ c.g ∧ c.g ≤ 1) (hb : 0 ≤ c.b ∧ c.b ≤ 1)
    (ha : 0 ≤ c.a ∧ c.a ≤ 1) :
    (((Rgba8.fromRgba c).r : ℕ) : ℤ) = f32Round (c.r * 255) ∧
      (((Rgba8.fromRgba c).g : ℕ) : ℤ) = f32Round (c.g * 255) ∧
      (((Rgba8.fromRgba c).b : ℕ) : ℤ) = f32Round (c.b * 255) ∧
      (((Rgba8.fromRgba c).a : ℕ) : ℤ) = f32Round (c.a * 255) ∧
      Rgba8.fromRgba ⟨1, 1, 1, 1⟩ = ⟨255, 255, 255, 255⟩ ∧
      Rgba8.fromRgba ⟨0, 0, 0, 0⟩ = ⟨0, 0, 0, 0⟩ ∧
      Rgba8.fromRgba ⟨1 / 2, 1 / 2, 1 / 2, 1 / 2⟩ =
        ⟨128, 128, 128, 128⟩ := by
  refine ⟨fromRgba_channel c.r hr.1 hr.2, fromRgba_channel c.g hg.1 hg.2,
    fromRgba_channel c.b hb.1 hb.2, fromRgba_channel c.a ha.1 ha.2, ?_, ?_,
    ?_⟩ <;>
    (norm_num [Rgba8.fromRgba, u8sat, f32Round, Rgba8.mk.injEq]; try decide)

/-- Witness for C9 at the half-intensity grey `(1/2, 1/2, 1/2, 1/2)`. -/
theorem color_conversion_witness :
    (((Rgba8.fromRgba ⟨1 / 2, 1 / 2, 1 / 2, 1 / 2⟩).r : ℕ) : ℤ) =
        f32Round (1 / 2 * 255) ∧
      (((Rgba8.fromRgba ⟨1 / 2, 1 / 2, 1 / 2, 1 / 2⟩).g : ℕ) : ℤ) =
        f32Round (1 / 2 * 255) ∧
      (((Rgba8.fromRgba ⟨1 / 2, 1 / 2, 1 / 2, 1 / 2⟩).b : ℕ) : ℤ) =
        f32Round (1 / 2 * 255) ∧
      (((Rgba8.fromRgba ⟨1 / 2, 1 / 2, 1 / 2, 1 / 2⟩).a : ℕ) : ℤ) =
        f32Round (1 / 2 * 255) ∧
      Rgba8.fromRgba ⟨1, 1, 1, 1⟩ = ⟨255, 255, 255, 255⟩ ∧
      Rgba8.fromRgba ⟨0, 0, 0, 0⟩ = ⟨0, 0, 0, 0⟩ ∧
      Rgba8.fromRgba ⟨1 / 2, 1 / 2, 1 / 2, 1 / 2⟩ =
        ⟨128, 128, 128, 128⟩ :=
  color_conversion ⟨1 / 2, 1 / 2, 1 / 2, 1 / 2⟩ (by norm_num) (by norm_num)
    (by norm_num) (by norm_num)

/-- Every reachable sprite batch state keeps `size` equal to the number of
stored entries. -/
theorem tv_reachable_size (tv : Sprite2d.TextureView)
    (h : Sprite2d.TVReachable tv) : tv.size = tv.views.length := by
  induction h with
  | new w h => rfl
  | singleton w h src dst rgba rep => rfl
  | add tv src dst rgba rep _ ih => simp [Sprite2d.TextureView.add, ih]
  | offset tv x y _ ih => simp [Sprite2d.TextureView.offset, ih]

/-- C10: the public `size` field of a sprite batch equals the number of
stored entries: `new` establishes `size = 0` with no entries, `singleton`
establishes `size = 1` with one entry, `add` increments both the entry list
and `size` by exactly one, `offset` leaves both unchanged, and on every
reachable batch state `size` equals the entry count (`finish` only reads
the batch, consuming it). -/
theorem texture_view_size_invariant (w h : ℕ) (src dst : Rect) (rgba : Rgba)
    (rep : Repeat) (x y : ℚ) (tv : Sprite2d.TextureView)
    (hr : Sprite2d.TVReachable tv) :
    (Sprite2d.TextureView.new w h).size = 0 ∧
      (Sprite2d.TextureView.new w h).views.length = 0 ∧
      (Sprite2d.TextureView.singleton w h src dst rgba rep).size = 1 ∧
      (Sprite2d.TextureView.singleton w h src dst rgba rep).views.length =
        1 ∧
      (tv.add src dst rgba rep).size = tv.size + 1 ∧
      (tv.add src dst rgba rep).views.length = tv.views.length + 1 ∧
      (tv.offset x y).size = tv.size ∧
      (tv.offset x y).views.length = tv.views.length ∧
      tv.size = tv.views.length :=
  ⟨rfl, rfl, rfl, rfl, rfl, by simp [Sprite2d.TextureView.add], rfl,
    by simp [Sprite2d.TextureView.offset], tv_reachable_size tv hr⟩

/-- Witness for C10 starting from a freshly created batch. -/
theorem texture_view_size_invariant_witness :
    (Sprite2d.TextureView.new 64 64).size = 0 ∧
      (Sprite2d.TextureView.new 64 64).views.length = 0 ∧
      (Sprite2d.TextureView.singleton 64 64 (Rect.new 0 0 1 1)
        (Rect.new 2 2 3 3) ⟨1, 1, 1, 1⟩ ⟨1, 1⟩).size = 1 ∧
      (Sprite2d.TextureView.singleton 64 64 (Rect.new 0 0 1 1)
        (Rect.new 2 2 3 3) ⟨1, 1, 1, 1⟩ ⟨1, 1⟩).views.length = 1 ∧
      ((Sprite2d.TextureView.new 64 64).add (Rect.new 0 0 1 1)
        (Rect.new 2 2 3 3) ⟨1, 1, 1, 1⟩ ⟨1, 1⟩).size =
        (Sprite2d.TextureView.new 64 64).size + 1 ∧
      ((Sprite2d.TextureView.new 64 64).add (Rect.new 0 0 1 1)
        (Rect.new 2 2 3 3) ⟨1, 1, 1, 1⟩ ⟨1, 1⟩).views.length =
        (Sprite2d.TextureView.new 64 64).views.length + 1 ∧
      ((Sprite2d.TextureView.new 64 64).offset 5 7).size =
        (Sprite2d.TextureView.new 64 64).size ∧
      ((Sprite2d.TextureView.new 64 64).offset 5 7).views.length =
        (Sprite2d.TextureView.new 64 64).views.length ∧
      (Sprite2d.TextureView.new 64 64).size =
        (Sprite2d.TextureView.new 64 64).views.length :=
  texture_view_size_invariant 64 64 (Rect.new 0 0 1 1) (Rect.new 2 2 3 3)
    ⟨1, 1, 1, 1⟩ ⟨1, 1⟩ 5 7 (Sprite2d.TextureView.new 64 64)
    (Sprite2d.TVReachable.new 64 64)

end Rgx
